import Mathlib

/-!
Verification of the response framing and demultiplexing layer of
`py_sim7600` (file `src/py_sim7600/device/__init__.py`, class `Device`).

The embedding models the byte stream as `List Char` and models the serial
transport seen by one call as a *delivery schedule*: a list whose `n`-th
element is the block of bytes found waiting at the `n`-th read performed by
the call (an empty element means `in_waiting == 0` at that poll).  Wall-clock
time is modelled by a fuel count: one unit of fuel is one iteration of the
polling loop, and exhausting the fuel is the `time.time() - start_time <
timeout` guard failing, i.e. the "Device read timeout" exception.
-/

namespace PySim7600

/-- The response delimiter.  Every call of `read_full_response` in the
repository passes the literal `'\r\n'`. -/
def crlf : List Char := ['\r', '\n']

/-- Python's `$` (no `re.MULTILINE`): it matches at the end of the string and
also just before a trailing `'\n'`.  Expressed on the remaining suffix `rest`
of the subject string: `rest = []` or `rest = ['\n']`. -/
def dollarOk (rest : List Char) : Prop := rest = [] ∨ rest = ['\n']

instance (rest : List Char) : Decidable (dollarOk rest) := by
  unfold dollarOk; infer_instance

/-- The zero-width lookahead `(?=D|$)` of the segmentation regex, evaluated at
the position where `rest` is the remaining suffix of the subject string. -/
def lookOk (D rest : List Char) : Prop := D <+: rest ∨ dollarOk rest

instance (D rest : List Char) : Decidable (lookOk D rest) := by
  unfold lookOk; infer_instance

/-- Matching `(.+?)D(?=D|$)` (with `re.DOTALL`) at the current position:
scan for the shortest non-empty capture `c` such that the subject splits as
`c ++ D ++ rest` with the lookahead holding at `rest`.  `c0` accumulates the
capture consumed so far; returns `(capture, rest)` on success. -/
def findCloseAux (D : List Char) : List Char → List Char → Option (List Char × List Char)
  | _, [] => none
  | c0, a :: t =>
    if D <+: t ∧ lookOk D (t.drop D.length) then some (c0 ++ [a], t.drop D.length)
    else findCloseAux D (c0 ++ [a]) t

/-- One `re.findall` scan of the pattern `D(.+?)D(?=D|$)` (with `re.DOTALL`)
over the subject `s`, exactly as `read_full_response` builds it with
`re.escape(pattern)`.  The scan tries to match at each position from the left;
on a match it records the capture and resumes at the end of the match (the
lookahead is zero width and not consumed); otherwise it advances one
character.  `fuel` bounds the number of scan steps; `fuel = s.length`
suffices because each step strictly shrinks the remaining subject. -/
def findallAux (D : List Char) : Nat → List Char → List (List Char)
  | 0, _ => []
  | _ + 1, [] => []
  | fuel + 1, a :: t =>
    if D ≠ [] ∧ D <+: a :: t then
      match findCloseAux D [] ((a :: t).drop D.length) with
      | some (c, rest) => c :: findallAux D fuel rest
      | none => findallAux D fuel t
    else findallAux D fuel t

/-- `re.findall(f'{escaped}(.+?){escaped}(?={escaped}|$)', s, re.DOTALL)`
as performed on the settled accumulated buffer. -/
def findall (D s : List Char) : List (List Char) := findallAux D s.length s

/-- Outcome of `Device.read_full_response`: the raised "Device read timeout"
exception, the `return None` branch (regex found no match), or the returned
list of frames. -/
inductive ReadResult where
  | timeout : ReadResult
  | noMatch : ReadResult
  | frames : List (List Char) → ReadResult
deriving DecidableEq, Repr

/-- The polling loop of `Device.read_full_response`.  `stream` is the delivery
schedule (head = bytes waiting at the next read), `acc` is
`accumulated_data`, `started` is `response_started`.  A settled buffer
(`response_started and accumulated_data.endswith(pattern) and
accumulated_data != pattern`) triggers the grace-window re-read, which
consumes the next schedule element; if that read returns nothing the buffer
is segmented, otherwise the loop continues (`continue`). -/
def readLoop (D : List Char) : Nat → List (List Char) → List Char → Bool → ReadResult
  | 0, _, _, _ => .timeout
  | fuel + 1, [], acc, started => readLoop D fuel [] acc started
  | fuel + 1, [] :: rest, acc, started => readLoop D fuel rest acc started
  | fuel + 1, (a :: c) :: rest, acc, started =>
    if (started || decide (D <:+: acc ++ a :: c)) = true ∧ D <:+ acc ++ a :: c ∧ acc ++ a :: c ≠ D then
      if rest.headD [] = [] then
        if findall D (acc ++ a :: c) = [] then .noMatch
        else .frames (findall D (acc ++ a :: c))
      else
        readLoop D fuel rest.tail (acc ++ a :: c ++ rest.headD [])
          (started || decide (D <:+: acc ++ a :: c))
    else readLoop D fuel rest (acc ++ a :: c) (started || decide (D <:+: acc ++ a :: c))

/-- `Device.read_full_response(pattern, timeout)` on a transport with delivery
schedule `stream`, with `fuel` poll iterations available inside the timeout. -/
def readFull (D : List Char) (fuel : Nat) (stream : List (List Char)) : ReadResult :=
  readLoop D fuel stream [] false

/-- The buffer `DELIM f1 DELIM DELIM f2 DELIM ... DELIM fN DELIM`: each
segment individually bracketed by the delimiter. -/
def bracketed (fs : List (List Char)) : List Char :=
  (fs.map (fun f => crlf ++ f ++ crlf)).flatten

/-- The settle condition of the reader on a buffer `P`: the delimiter has been
seen (`pattern in accumulated_data`), the buffer ends with it and is not the
bare delimiter. -/
def settles (P : List Char) : Prop := crlf <:+: P ∧ crlf <:+ P ∧ P ≠ crlf

instance (P : List Char) : Decidable (settles P) := by
  unfold settles; infer_instance

/-- Per-instance state of a `Device`: the `__is_on` flag and the bytes written
to the serial transport so far.  The delivery schedule of a read is passed to
each call, since it describes what the transport yields during that call. -/
structure Dev where
  is_on : Bool
  written : List Char
deriving DecidableEq, Repr

/-- `Device.__init__`: with no GPIO access (`is_rpi` false, i.e. `RPi.GPIO`
failed to import), `self.__is_on = not self.__is_rpi` starts true. -/
def mkDevice (isRpi : Bool) : Dev := { is_on := !isRpi, written := [] }

/-- The test `error_pattern is not None and any([error in message for error in
error_pattern])` of `Device.send`. -/
def isErr (eps : Option (List (List Char))) (m : List Char) : Prop :=
  match eps with
  | none => False
  | some l => ∃ e ∈ l, e <:+: m

instance (eps : Option (List (List Char))) (m : List Char) : Decidable (isErr eps m) := by
  unfold isErr; cases eps <;> infer_instance

/-- The test `back is not None and back in message` of `Device.send`. -/
def matchesBack (back : Option (List Char)) (m : List Char) : Prop :=
  match back with
  | none => False
  | some b => b <:+: m

instance (back : Option (List Char)) (m : List Char) : Decidable (matchesBack back m) := by
  unfold matchesBack; cases back <;> infer_instance

/-- The `for message in response` classification loop of `Device.send`,
branch for branch: an error marker overwrites `error_message`; once
`result_message` is set every later frame goes to the unsolicited queue; a
frame containing `back` is claimed as the result; with `back is None` the
first frame is claimed; anything else goes to the unsolicited queue.
Returns `(result_message, error_message, urc additions)` where the empty
error message stands for Python's falsy `''`. -/
def classifyLoop (back : Option (List Char)) (eps : Option (List (List Char))) :
    List (List Char) → Option (List Char) → List Char → List (List Char) →
    Option (List Char) × List Char × List (List Char)
  | [], res, err, adds => (res, err, adds)
  | m :: rest, res, err, adds =>
    if isErr eps m then classifyLoop back eps rest res m adds
    else if res.isSome then classifyLoop back eps rest res err (adds ++ [m])
    else if matchesBack back m then classifyLoop back eps rest (some m) err adds
    else if back = none then classifyLoop back eps rest (some m) err adds
    else classifyLoop back eps rest res err (adds ++ [m])

/-- Outcome of `Device.send`: the "Device not on" exception, the re-raised
wrapper around a failed write/read (here: the read timeout), the "Device
returned error: ..." exception, the "Device returned no valid response"
exception, or the returned result string. -/
inductive SendOutcome where
  | notOn : SendOutcome
  | readFailed : SendOutcome
  | deviceError : List Char → SendOutcome
  | noValidResponse : SendOutcome
  | ok : List Char → SendOutcome
deriving DecidableEq, Repr

/-- `Device.send(command, pattern, back, error_pattern, timeout)`.  `urc0` is
the current content of the class-level `Device.__urc` queue and `sched` the
delivery schedule the transport produces for this call's read.  Returns the
outcome together with the new device state and the new queue content. -/
def send (d : Dev) (urc0 : List (List Char)) (sched : List (List Char))
    (command pattern : List Char) (back : Option (List Char))
    (eps : Option (List (List Char))) (fuel : Nat) :
    SendOutcome × Dev × List (List Char) :=
  if d.is_on = true then
    let d1 : Dev := { d with written := d.written ++ command ++ ['\r'] }
    match readFull pattern fuel sched with
    | .timeout => (.readFailed, d1, urc0)
    | .noMatch => (.noValidResponse, d1, urc0)
    | .frames fs =>
      let cl := classifyLoop back eps fs none [] []
      if cl.2.1 ≠ [] then (.deviceError cl.2.1, d1, urc0 ++ cl.2.2)
      else
        match cl.1 with
        | some r => (.ok r, d1, urc0 ++ cl.2.2)
        | none => (.noValidResponse, d1, urc0 ++ cl.2.2)
  else (.notOn, d, urc0)

/-- The `Device.urc` property accessor (its `clear` parameter is always the
default `True`, a property takes no argument): one extra speculative
`read_full_response('\r\n')` whose `DeviceException` is swallowed and whose
`None` result is skipped, then the queue is drained front to back by
`pop(0)`.  Returns the drained responses and the new queue content. -/
def urcAcc (urc0 : List (List Char)) (sched : List (List Char)) (fuel : Nat) :
    List (List Char) × List (List Char) :=
  let urc1 :=
    match readFull crlf fuel sched with
    | .timeout => urc0
    | .noMatch => urc0
    | .frames fs => urc0 ++ fs
  (urc1, [])

/-- Two `Device` instances of one process.  `Device.__urc` is a class
attribute initialised once at class creation and only ever mutated in place
(`append`, `extend`, `pop`); no method rebinds it on an instance, so the one
list is shared by every instance — hence a single `urc` field here. -/
structure World where
  a : Dev
  b : Dev
  urc : List (List Char)
deriving DecidableEq, Repr

/-- `send` invoked on instance `a` (if `onA`) or `b` of a shared world. -/
def sendW (w : World) (onA : Bool) (sched : List (List Char))
    (command pattern : List Char) (back : Option (List Char))
    (eps : Option (List (List Char))) (fuel : Nat) : SendOutcome × World :=
  let r := send (if onA then w.a else w.b) w.urc sched command pattern back eps fuel
  (r.1, if onA then { w with a := r.2.1, urc := r.2.2 } else { w with b := r.2.1, urc := r.2.2 })

/-- The `urc` accessor invoked on instance `a` (if `onA`) or `b`.  The
instance chosen only determines which serial port the speculative read
polls, which the delivery schedule argument already models. -/
def urcAccW (w : World) (_onA : Bool) (sched : List (List Char)) (fuel : Nat) :
    List (List Char) × World :=
  let r := urcAcc w.urc sched fuel
  (r.1, { w with urc := r.2 })

/-! Helper lemmas. -/

theorem infix_append_right {l m : List Char} (r : List Char) (h : l <:+: m) :
    l <:+: m ++ r :=
  h.trans (List.prefix_append m r).isInfix

/-- The settle test of the reader: since `endswith(pattern)` implies
`pattern in accumulated_data`, and the `response_started` flag is set in the
same iteration before the test, the flag conjunct is redundant. -/
theorem settle_cond (D P : List Char) (started : Bool) :
    ((started || decide (D <:+: P)) = true ∧ D <:+ P ∧ P ≠ D) ↔ (D <:+ P ∧ P ≠ D) := by
  constructor
  · rintro ⟨-, h2, h3⟩
    exact ⟨h2, h3⟩
  · rintro ⟨h2, h3⟩
    refine ⟨?_, h2, h3⟩
    have hd : decide (D <:+: P) = true := decide_eq_true h2.isInfix
    simp [hd]

/-- If the delimiter never occurs in anything the transport will deliver, the
polling loop never settles and exhausts its fuel: the read times out. -/
theorem readLoop_no_delim (D : List Char) :
    ∀ (fuel : Nat) (stream : List (List Char)) (acc : List Char) (started : Bool),
      ¬ D <:+: acc ++ stream.flatten → readLoop D fuel stream acc started = .timeout := by
  intro fuel
  induction fuel with
  | zero => intro stream acc started _; rfl
  | succ n ih =>
    intro stream acc started h
    rcases stream with - | ⟨c, rest⟩
    · simp only [readLoop]
      exact ih [] acc started h
    · rcases c with - | ⟨a, c⟩
      · simp only [readLoop]
        exact ih rest acc started (by simpa using h)
      · simp only [readLoop]
        rw [if_neg]
        · exact ih rest (acc ++ a :: c) _ (by
            intro hin
            exact h (by simpa [List.append_assoc] using hin))
        · intro hc
          have hs : D <:+ acc ++ a :: c := hc.2.1
          exact h (by
            have h2 := infix_append_right rest.flatten hs.isInfix
            simpa [List.append_assoc] using h2)

/-- The speculative read of the `urc` accessor on an idle line: with nothing
to deliver the read always times out. -/
theorem readFull_nil (D : List Char) (hD : D ≠ []) (fuel : Nat) :
    readFull D fuel [] = .timeout := by
  apply readLoop_no_delim
  simp [List.IsInfix, hD]

/-- A successful close scan strictly extends the capture accumulator; in
particular the capture of the lazy group `(.+?)` is never empty. -/
theorem findCloseAux_length (D : List Char) :
    ∀ (t c0 cap rest : List Char), findCloseAux D c0 t = some (cap, rest) →
      c0.length < cap.length := by
  intro t
  induction t with
  | nil => intro c0 cap rest h; simp [findCloseAux] at h
  | cons a t ih =>
    intro c0 cap rest h
    rw [findCloseAux] at h
    split at h
    · rcases Option.some.inj h with h2
      have : cap = c0 ++ [a] := (congrArg Prod.fst h2).symm
      simp [this]
    · have := ih (c0 ++ [a]) cap rest h
      simp at this
      omega

/-- The segmentation scan never emits a zero-length frame: callers only ever
see non-empty payloads. -/
theorem findallAux_no_nil (D : List Char) :
    ∀ (fuel : Nat) (s : List Char), [] ∉ findallAux D fuel s := by
  intro fuel
  induction fuel with
  | zero => intro s; simp [findallAux]
  | succ n ih =>
    intro s
    rcases s with - | ⟨a, t⟩
    · simp [findallAux]
    · rw [findallAux]
      split
      · rcases h : findCloseAux D [] ((a :: t).drop D.length) with - | ⟨c, rest⟩
        · simpa [h] using ih t
        · have hc := findCloseAux_length D _ _ _ _ h
          simp at hc
          simp [h, ih rest]
          intro h0
          rw [h0] at hc
          simp at hc
      · exact ih t

/-- On a subject of the shape `f ++ crlf ++ rest` where the frame `f` is
non-empty and delimiter-free and the lookahead accepts `rest`, the lazy close
scan captures exactly `f`: no shorter capture can work because no delimiter
occurrence starts inside `f` or straddles its boundary. -/
theorem findCloseAux_exact :
    ∀ (f c0 rest : List Char), f ≠ [] → ¬ crlf <:+: f → lookOk crlf rest →
      findCloseAux crlf c0 (f ++ crlf ++ rest) = some (c0 ++ f, rest) := by
  intro f
  induction f with
  | nil => intro c0 rest hne _ _; exact absurd rfl hne
  | cons a f ih =>
    intro c0 rest _ hinf hlook
    rcases f with - | ⟨b, f⟩
    · show findCloseAux crlf c0 (a :: (crlf ++ rest)) = some (c0 ++ [a], rest)
      rw [findCloseAux, if_pos]
      · simp [crlf]
      · refine ⟨List.prefix_append crlf rest, ?_⟩
        simpa [crlf] using hlook
    · have hstep : findCloseAux crlf c0 ((a :: b :: f) ++ crlf ++ rest)
        = findCloseAux crlf (c0 ++ [a]) ((b :: f) ++ crlf ++ rest) := by
        show findCloseAux crlf c0 (a :: ((b :: f) ++ crlf ++ rest)) = _
        rw [findCloseAux, if_neg]
        intro hc
        have hp : crlf <+: (b :: f) ++ crlf ++ rest := hc.1
        rcases f with - | ⟨d, f⟩
        · simp [crlf, List.cons_prefix_cons] at hp
        · simp only [crlf, List.cons_append, List.cons_prefix_cons] at hp
          rcases hp with ⟨hb, hd, -⟩
          refine hinf ⟨[a], f, ?_⟩
          simp only [crlf, List.cons_append, List.nil_append, ← hb, ← hd]
      have hinf2 : ¬ crlf <:+: b :: f := by
        intro h2
        exact hinf (h2.trans (List.suffix_cons a (b :: f)).isInfix)
      rw [hstep, ih (c0 ++ [a]) rest (by simp) hinf2 hlook]
      simp

/-- Decomposition of a bracketed buffer into its head bracket and tail. -/
theorem bracketed_cons (f : List Char) (fs : List (List Char)) :
    bracketed (f :: fs) = '\r' :: '\n' :: (f ++ crlf ++ bracketed fs) := by
  simp [bracketed, crlf, List.append_assoc]

/-- The lookahead accepts whatever follows a closing delimiter in a bracketed
buffer: either another bracket starts with the delimiter or the buffer ends. -/
theorem lookOk_bracketed (fs : List (List Char)) : lookOk crlf (bracketed fs) := by
  rcases fs with - | ⟨g, gs⟩
  · exact Or.inr (Or.inl rfl)
  · rw [bracketed_cons]
    exact Or.inl (by simp [crlf, List.cons_prefix_cons])

/-- Segmentation of a fully bracketed buffer
`DELIM f1 DELIM DELIM f2 DELIM ... DELIM fN DELIM` with non-empty,
delimiter-free frames recovers exactly the frames, in order. -/
theorem findallAux_bracketed :
    ∀ (fs : List (List Char)) (fuel : Nat), (∀ f ∈ fs, f ≠ [] ∧ ¬ crlf <:+: f) →
      (bracketed fs).length ≤ fuel → findallAux crlf fuel (bracketed fs) = fs := by
  intro fs
  induction fs with
  | nil => intro fuel _ _; rcases fuel with - | n <;> simp [bracketed, findallAux]
  | cons f fs ih =>
    intro fuel hf hlen
    have hf1 := hf f (by simp)
    rw [bracketed_cons] at hlen
    rcases fuel with - | n
    · simp at hlen
    · have hlen2 : (bracketed fs).length ≤ n := by simp at hlen; omega
      rw [bracketed_cons, findallAux, if_pos]
      · have hdrop : ('\r' :: '\n' :: (f ++ crlf ++ bracketed fs)).drop crlf.length
            = f ++ crlf ++ bracketed fs := by simp [crlf]
        rw [hdrop, findCloseAux_exact f [] (bracketed fs) hf1.1 hf1.2 (lookOk_bracketed fs)]
        show ([] ++ f) :: findallAux crlf n (bracketed fs) = f :: fs
        rw [ih n (fun g hg => hf g (by simp [hg])) hlen2]
        simp
      · exact ⟨by simp [crlf], by simp [crlf, List.cons_prefix_cons]⟩

/-- Top-level form of the segmentation result, as `read_full_response`
invokes it (the scan fuel is the buffer length). -/
theorem findall_bracketed (fs : List (List Char))
    (hf : ∀ f ∈ fs, f ≠ [] ∧ ¬ crlf <:+: f) :
    findall crlf (bracketed fs) = fs :=
  findallAux_bracketed fs (bracketed fs).length hf le_rfl

/-- A non-empty bracketed buffer ends with the delimiter. -/
theorem crlf_suffix_bracketed :
    ∀ (fs : List (List Char)), fs ≠ [] → crlf <:+ bracketed fs := by
  intro fs
  induction fs with
  | nil => intro h; exact absurd rfl h
  | cons f fs ih =>
    intro _
    rcases fs with - | ⟨g, gs⟩
    · exact ⟨crlf ++ f, by simp [bracketed]⟩
    · rcases ih (by simp) with ⟨u, hu⟩
      refine ⟨(crlf ++ f ++ crlf) ++ u, ?_⟩
      rw [List.append_assoc, hu]
      simp [bracketed]

/-- A bracketed buffer with at least one non-empty frame satisfies the settle
condition of the reader. -/
theorem settles_bracketed (f : List Char) (fs : List (List Char)) (hf : f ≠ []) :
    settles (bracketed (f :: fs)) := by
  have hsfx : crlf <:+ bracketed (f :: fs) := crlf_suffix_bracketed (f :: fs) (by simp)
  refine ⟨hsfx.isInfix, hsfx, ?_⟩
  intro heq
  have hl := congrArg List.length heq
  rw [bracketed_cons] at hl
  have : 0 < f.length := List.length_pos.mpr hf
  simp [crlf] at hl

/-- Run of the polling loop over a delivery schedule whose cumulative content
is a bracketed buffer, provided no proper prefix of the schedule already
satisfies the settle condition: the loop consumes every chunk and, at the
chunk that completes the buffer, settles with an empty grace read and returns
the segmented frames. -/
theorem readLoop_bracketed (fs : List (List Char))
    (hf : ∀ f ∈ fs, f ≠ [] ∧ ¬ crlf <:+: f) (hne : fs ≠ []) :
    ∀ (cs : List (List Char)) (acc : List Char) (started : Bool) (fuel : Nat),
      cs ≠ [] → acc ++ cs.flatten = bracketed fs →
      (∀ j < cs.length, ¬ settles (acc ++ (cs.take j).flatten)) →
      cs.length ≤ fuel →
      readLoop crlf fuel cs acc started = .frames fs := by
  intro cs
  induction cs with
  | nil => intro acc started fuel h _ _ _; exact absurd rfl h
  | cons c rest ih =>
    intro acc started fuel _ hjoin hset hlen
    rcases fuel with - | n
    · simp at hlen
    · rcases c with - | ⟨a, c⟩
      · rcases rest with - | ⟨c2, rest2⟩
        · exfalso
          have h0 := hset 0 (by simp)
          simp at h0 hjoin
          rcases fs with - | ⟨f, fs⟩
          · exact hne rfl
          · exact h0 (hjoin ▸ settles_bracketed f fs (hf f (by simp)).1)
        · simp only [readLoop]
          apply ih acc started n (by simp) (by simpa using hjoin) ?_ (by simp at hlen ⊢; omega)
          intro j hj
          have hs := hset (j + 1) (by simp at hj ⊢; omega)
          simpa using hs
      · simp only [readLoop]
        rcases rest with - | ⟨c2, rest2⟩
        · have hacc : acc ++ a :: c = bracketed fs := by simpa using hjoin
          have hcond : (started || decide (crlf <:+: acc ++ a :: c)) = true ∧
              crlf <:+ acc ++ a :: c ∧ acc ++ a :: c ≠ crlf := by
            refine (settle_cond crlf (acc ++ a :: c) started).mpr ?_
            rcases fs with - | ⟨f, fs⟩
            · exact absurd rfl hne
            · have hs := settles_bracketed f fs (hf f (by simp)).1
              rw [hacc]
              exact ⟨hs.2.1, hs.2.2⟩
          rw [if_pos hcond, if_pos (show (List.headD ([] : List (List Char)) []) = [] from rfl)]
          rw [hacc, findall_bracketed fs hf, if_neg hne]
        · have hnset := hset 1 (by simp)
          rw [if_neg]
          · apply ih (acc ++ a :: c) _ n (by simp) ?_ ?_ (by simp at hlen ⊢; omega)
            · simpa [List.append_assoc] using hjoin
            · intro j hj
              have hs := hset (j + 1) (by simp at hj ⊢; omega)
              simpa [List.append_assoc] using hs
          · intro hc
            rcases (settle_cond crlf (acc ++ a :: c) started).mp hc with ⟨h2, h3⟩
            apply hnset
            refine ⟨?_, ?_, ?_⟩ <;> simp [List.take, h2, h2.isInfix, h3]


/-- Whenever the reader returns frames, the list is non-empty (otherwise the
`return None` branch is taken) and every frame is non-empty (the lazy group
requires at least one character). -/
theorem readLoop_frames (D : List Char) :
    ∀ (fuel : Nat) (stream : List (List Char)) (acc : List Char) (started : Bool)
      (fs : List (List Char)),
      readLoop D fuel stream acc started = .frames fs → fs ≠ [] ∧ ∀ m ∈ fs, m ≠ [] := by
  intro fuel
  induction fuel with
  | zero => intro s acc st fs h; simp [readLoop] at h
  | succ n ih =>
    intro s acc st fs h
    rcases s with - | ⟨c, rest⟩
    · exact ih [] acc st fs (by simpa [readLoop] using h)
    · rcases c with - | ⟨a, c⟩
      · exact ih rest acc st fs (by simpa [readLoop] using h)
      · simp only [readLoop] at h
        split at h
        · split at h
          · split at h
            · cases h
            · next hne =>
              obtain rfl : findall D (acc ++ a :: c) = fs := by cases h; rfl
              refine ⟨hne, fun m hm hm0 => ?_⟩
              rw [hm0] at hm
              exact findallAux_no_nil D _ _ hm
          · exact ih rest.tail _ _ fs h
        · exact ih rest _ _ fs h

/-- The classification loop of `send`, when an error marker has already been
recorded or occurs in one of the remaining frames, ends with a non-empty
error message that contains an error marker and is the recorded message or
one of the scanned frames; the scan never stops early. -/
theorem classifyLoop_err (back : Option (List Char)) (eps : Option (List (List Char))) :
    ∀ (ms : List (List Char)) (res : Option (List Char)) (err : List Char)
      (adds : List (List Char)),
      (∀ m ∈ ms, m ≠ []) →
      ((err ≠ [] ∧ isErr eps err) ∨ (∃ m ∈ ms, isErr eps m)) →
      (classifyLoop back eps ms res err adds).2.1 ≠ [] ∧
        isErr eps (classifyLoop back eps ms res err adds).2.1 ∧
        ((classifyLoop back eps ms res err adds).2.1 = err ∨
          (classifyLoop back eps ms res err adds).2.1 ∈ ms) := by
  intro ms
  induction ms with
  | nil =>
    intro res err adds _ hd
    rcases hd with ⟨h1, h2⟩ | ⟨m, hm, -⟩
    · exact ⟨h1, h2, Or.inl rfl⟩
    · cases hm
  | cons m rest ih =>
    intro res err adds hne hd
    simp only [classifyLoop]
    by_cases he : isErr eps m
    · rw [if_pos he]
      have h3 := ih res m adds (fun x hx => hne x (by simp [hx])) (Or.inl ⟨hne m (by simp), he⟩)
      refine ⟨h3.1, h3.2.1, Or.inr ?_⟩
      rcases h3.2.2 with h | h
      · simp [h]
      · simp [h]
    · rw [if_neg he]
      have hd2 : (err ≠ [] ∧ isErr eps err) ∨ ∃ x ∈ rest, isErr eps x := by
        rcases hd with h | ⟨x, hx, hex⟩
        · exact Or.inl h
        · rcases List.mem_cons.mp hx with rfl | hx2
          · exact absurd hex he
          · exact Or.inr ⟨x, hx2, hex⟩
      have step : ∀ (res2 : Option (List Char)) (adds2 : List (List Char)),
          (classifyLoop back eps rest res2 err adds2).2.1 ≠ [] ∧
            isErr eps (classifyLoop back eps rest res2 err adds2).2.1 ∧
            ((classifyLoop back eps rest res2 err adds2).2.1 = err ∨
              (classifyLoop back eps rest res2 err adds2).2.1 ∈ m :: rest) := by
        intro res2 adds2
        have h3 := ih res2 err adds2 (fun x hx => hne x (by simp [hx])) hd2
        refine ⟨h3.1, h3.2.1, ?_⟩
        rcases h3.2.2 with h | h
        · exact Or.inl h
        · exact Or.inr (List.mem_cons_of_mem m h)
      split
      · exact step _ _
      · split
        · exact step _ _
        · split
          · exact step _ _
          · exact step _ _

/-! Claim theorems. -/

/-- C1 counterexample: the two chunks jointly deliver the well-bracketed
two-segment stream `\r\nA\r\n\r\nB\r\n`, but because the second chunk
arrives during the grace-window re-read the loop `continue`s, never again
sees `in_waiting > 0`, and times out instead of returning the two segments:
the result is not chunking-invariant. -/
theorem read_full_grace_window_counterexample :
    List.flatten ["\r\nA\r\n".data, "\r\nB\r\n".data] = bracketed [['A'], ['B']]
      ∧ readFull crlf 10 ["\r\nA\r\n".data, "\r\nB\r\n".data] = .timeout
      ∧ ReadResult.timeout ≠ .frames [['A'], ['B']] := by decide

/-- C1 (amended): for N ≥ 1 non-empty delimiter-free segments, each bracketed
by the delimiter, `read_full_response` returns exactly those segments in
order for every chunking of the bytes across poll iterations in which no
proper prefix of the schedule already satisfies the settle condition (such a
prefix either returns early or, when the rest arrives during the grace
window, times out — see the counterexample). -/
theorem read_full_chunking_invariance (fs cs : List (List Char)) (fuel : Nat)
    (hf : ∀ f ∈ fs, f ≠ [] ∧ ¬ crlf <:+: f) (hN : fs ≠ [])
    (hjoin : cs.flatten = bracketed fs)
    (hset : ∀ j < cs.length, ¬ settles (cs.take j).flatten)
    (hfuel : cs.length ≤ fuel) (hcs : cs ≠ []) :
    readFull crlf fuel cs = .frames fs :=
  readLoop_bracketed fs hf hN cs [] false fuel hcs (by simpa using hjoin)
    (fun j hj => by simpa using hset j hj) hfuel

theorem read_full_chunking_invariance_witness :
    (∀ f ∈ ([['O', 'K']] : List (List Char)), f ≠ [] ∧ ¬ crlf <:+: f)
      ∧ (["\r\nO".data, "K\r\n".data] : List (List Char)).flatten = bracketed [['O', 'K']]
      ∧ (∀ j < ([ "\r\nO".data, "K\r\n".data ] : List (List Char)).length,
          ¬ settles ((["\r\nO".data, "K\r\n".data] : List (List Char)).take j).flatten)
      ∧ readFull crlf 2 ["\r\nO".data, "K\r\n".data] = .frames [['O', 'K']] :=
  ⟨by decide, by decide, by decide,
    read_full_chunking_invariance [['O', 'K']] ["\r\nO".data, "K\r\n".data] 2
      (by decide) (by decide) (by decide) (by decide) (by decide) (by decide)⟩

/-- C2 counterexample: with `back = None` against a transport replying
`\r\nFIRSTLINE\r\nSECONDLINE\r\n` (single shared delimiter in the middle),
the lookahead forces the lazy group across the middle delimiter, so the read
yields the single frame `FIRSTLINE\r\nSECONDLINE`; `send` returns that whole
frame and appends nothing to the unsolicited queue. -/
theorem send_first_frame_counterexample :
    send (mkDevice false) [] ["\r\nFIRSTLINE\r\nSECONDLINE\r\n".data]
        "AT".data crlf none none 10
      = (.ok "FIRSTLINE\r\nSECONDLINE".data, ⟨true, "AT\r".data⟩, [])
      ∧ "FIRSTLINE\r\nSECONDLINE".data ≠ "FIRSTLINE".data
      ∧ ([] : List (List Char)) ≠ ["SECONDLINE".data] := by decide

/-- C2 (amended): with `back = None` against a transport replying
`\r\nFIRSTLINE\r\n\r\nSECONDLINE\r\n` (each line bracketed by its own
delimiters), `send` returns the payload `FIRSTLINE` — the first frame is
unconditionally the result — and appends `SECONDLINE` to the unsolicited
queue. -/
theorem send_first_frame_result_amended :
    send (mkDevice false) [] ["\r\nFIRSTLINE\r\n\r\nSECONDLINE\r\n".data]
        "AT".data crlf none none 10
      = (.ok "FIRSTLINE".data, ⟨true, "AT\r".data⟩, ["SECONDLINE".data]) := by decide

/-- C3 counterexample: the buffer `DELIM f1 DELIM` with the non-empty frame
`f1 = a\r\n\r\nb` is split by the scan into `["a", "b"]`, not `[f1]`: when a
frame itself contains delimiter-aligned text, the segmentation does not
return the original frames. -/
theorem segmentation_swallow_counterexample :
    bracketed ["a\r\n\r\nb".data] = "\r\na\r\n\r\nb\r\n".data
      ∧ findall crlf (bracketed ["a\r\n\r\nb".data]) = [['a'], ['b']]
      ∧ [['a'], ['b']] ≠ ["a\r\n\r\nb".data] := by decide

/-- C3 (amended): for every buffer `DELIM f1 DELIM DELIM f2 DELIM ... DELIM
fN DELIM` whose frames are non-empty and delimiter-free, the lookahead scan
splits it into exactly `[f1, ..., fN]` in order without swallowing the
shared delimiter between adjacent frames; moreover the scan never yields a
zero-length frame on any buffer whatsoever. -/
theorem segmentation_bracketed_frames (fs : List (List Char))
    (hf : ∀ f ∈ fs, f ≠ [] ∧ ¬ crlf <:+: f) :
    findall crlf (bracketed fs) = fs ∧ ∀ (s : List Char), [] ∉ findall crlf s :=
  ⟨findall_bracketed fs hf, fun s => findallAux_no_nil crlf s.length s⟩

theorem segmentation_bracketed_frames_witness :
    (∀ f ∈ ([['O', 'K'], ['R', 'G']] : List (List Char)), f ≠ [] ∧ ¬ crlf <:+: f)
      ∧ (findall crlf (bracketed [['O', 'K'], ['R', 'G']]) = [['O', 'K'], ['R', 'G']]
        ∧ ∀ (s : List Char), [] ∉ findall crlf s) :=
  ⟨by decide, segmentation_bracketed_frames [['O', 'K'], ['R', 'G']] (by decide)⟩

/-- C4: whenever the read yields frames and one of them contains one of the
caller-supplied error markers, `send` raises the command-failure error
carrying the text of a frame containing an error marker — even if another
frame was claimed as the result — and the scan still classifies all frames:
the unsolicited additions of the full scan are appended to the queue. -/
theorem send_error_precedence (d : Dev) (urc0 sched : List (List Char))
    (command pattern : List Char) (back : Option (List Char))
    (eps : List (List Char)) (fuel : Nat) (fs : List (List Char))
    (hon : d.is_on = true)
    (hread : readFull pattern fuel sched = .frames fs)
    (herr : ∃ m ∈ fs, isErr (some eps) m) :
    ∃ t, (send d urc0 sched command pattern back (some eps) fuel).1 = .deviceError t
      ∧ t ∈ fs ∧ isErr (some eps) t
      ∧ (send d urc0 sched command pattern back (some eps) fuel).2.2
          = urc0 ++ (classifyLoop back (some eps) fs none [] []).2.2 := by
  have hfr := readLoop_frames pattern fuel sched [] false fs hread
  have hcl := classifyLoop_err back (some eps) fs none [] [] hfr.2 (Or.inr herr)
  refine ⟨(classifyLoop back (some eps) fs none [] []).2.1, ?_, ?_, hcl.2.1, ?_⟩
  · simp only [send, hon, hread]
    rw [if_pos True.intro, if_pos hcl.1]
  · rcases hcl.2.2 with h | h
    · exact absurd h hcl.1
    · exact h
  · simp only [send, hon, hread]
    rw [if_pos True.intro, if_pos hcl.1]

theorem send_error_precedence_witness :
    (readFull crlf 10 ["\r\nERROR\r\n\r\nOK\r\n\r\nRING\r\n".data]
        = .frames ["ERROR".data, "OK".data, "RING".data])
      ∧ (∃ m ∈ (["ERROR".data, "OK".data, "RING".data] : List (List Char)),
          isErr (some ["ERROR".data]) m)
      ∧ (∃ t, (send ⟨true, []⟩ [] ["\r\nERROR\r\n\r\nOK\r\n\r\nRING\r\n".data]
            "AT".data crlf (some "OK".data) (some ["ERROR".data]) 10).1 = .deviceError t
          ∧ t ∈ (["ERROR".data, "OK".data, "RING".data] : List (List Char))
          ∧ isErr (some ["ERROR".data]) t
          ∧ (send ⟨true, []⟩ [] ["\r\nERROR\r\n\r\nOK\r\n\r\nRING\r\n".data]
              "AT".data crlf (some "OK".data) (some ["ERROR".data]) 10).2.2
            = [] ++ (classifyLoop (some "OK".data) (some ["ERROR".data])
                ["ERROR".data, "OK".data, "RING".data] none [] []).2.2)
      ∧ (send ⟨true, []⟩ [] ["\r\nERROR\r\n\r\nOK\r\n\r\nRING\r\n".data]
          "AT".data crlf (some "OK".data) (some ["ERROR".data]) 10).2.2
        = ["RING".data] :=
  ⟨by decide, by decide,
    send_error_precedence ⟨true, []⟩ [] ["\r\nERROR\r\n\r\nOK\r\n\r\nRING\r\n".data]
      "AT".data crlf (some "OK".data) ["ERROR".data] 10
      ["ERROR".data, "OK".data, "RING".data] rfl (by decide) (by decide),
    by decide⟩

/-- C5: on a stream that never contains the delimiter the read always fails
with the read-timeout error, whatever the poll budget: it never hangs beyond
the budget and never returns a frame or partial success. -/
theorem read_full_no_delimiter_timeout (D : List Char) (fuel : Nat)
    (stream : List (List Char)) (h : ¬ D <:+: stream.flatten) :
    readFull D fuel stream = .timeout :=
  readLoop_no_delim D fuel stream [] false (by simpa using h)

theorem read_full_no_delimiter_timeout_witness :
    ¬ crlf <:+: (List.flatten [['A', 'T']])
      ∧ readFull crlf 5 [['A', 'T']] = .timeout :=
  ⟨by decide, read_full_no_delimiter_timeout crlf 5 [['A', 'T']] (by decide)⟩

/-- C6: a `send` on a device not marked powered-on fails immediately with the
"Device not on" error, writes nothing to the transport and leaves the device
state and the unsolicited queue unchanged. -/
theorem send_not_powered_unchanged (d : Dev) (urc0 sched : List (List Char))
    (command pattern : List Char) (back : Option (List Char))
    (eps : Option (List (List Char))) (fuel : Nat)
    (h : d.is_on = false) :
    send d urc0 sched command pattern back eps fuel = (.notOn, d, urc0) := by
  simp [send, h]

theorem send_not_powered_unchanged_witness :
    (Dev.mk false ['x']).is_on = false
      ∧ send (Dev.mk false ['x']) [['R']] [['O']] "AT".data crlf none none 3
        = (.notOn, Dev.mk false ['x'], [['R']]) :=
  ⟨rfl, send_not_powered_unchanged (Dev.mk false ['x']) [['R']] [['O']]
    "AT".data crlf none none 3 rfl⟩

/-- C7: the `urc` accessor first performs a speculative read whose timeout is
swallowed (the prior queue is returned unchanged), extends the queue with any
frames that read yields, returns the whole queue in FIFO order leaving it
empty, and an immediately following call with no new traffic returns the
empty list. -/
theorem urc_accessor_drain_spec (urc0 schedT schedF : List (List Char))
    (fuelT fuelF fuel2 : Nat) (fs : List (List Char))
    (hT : readFull crlf fuelT schedT = .timeout)
    (hF : readFull crlf fuelF schedF = .frames fs) :
    urcAcc urc0 schedT fuelT = (urc0, [])
      ∧ urcAcc urc0 schedF fuelF = (urc0 ++ fs, [])
      ∧ urcAcc (urcAcc urc0 schedF fuelF).2 [] fuel2 = ([], []) := by
  have h0 : readFull crlf fuel2 [] = .timeout := readFull_nil crlf (by decide) fuel2
  exact ⟨by simp [urcAcc, hT], by simp [urcAcc, hF], by simp [urcAcc, hF, h0]⟩

theorem urc_accessor_drain_spec_witness :
    readFull crlf 3 [] = .timeout
      ∧ readFull crlf 5 ["\r\nRING\r\n".data] = .frames ["RING".data]
      ∧ (urcAcc [['X']] [] 3 = ([['X']], [])
        ∧ urcAcc [['X']] ["\r\nRING\r\n".data] 5 = ([['X'], "RING".data], [])
        ∧ urcAcc (urcAcc [['X']] ["\r\nRING\r\n".data] 5).2 [] 2 = ([], [])) :=
  ⟨by decide, by decide,
    urc_accessor_drain_spec [['X']] [] ["\r\nRING\r\n".data] 3 5 2 ["RING".data]
      (by decide) (by decide)⟩

/-- C9: the unsolicited queue is class-level state shared by every `Device`
instance: a frame classified as unsolicited during a `send` on instance `a`
is returned by the `urc` accessor of instance `b`, the drain on `b` empties
the queue, and a subsequent accessor call on instance `a` with no new
traffic returns the empty list. -/
theorem urc_shared_across_instances (w : World) (sched : List (List Char))
    (command pattern : List Char) (back : Option (List Char))
    (eps : Option (List (List Char))) (fuel fuel2 fuel3 : Nat)
    (o : SendOutcome) (w1 : World) (adds : List (List Char)) (m : List Char)
    (_hsend : sendW w true sched command pattern back eps fuel = (o, w1))
    (hadds : w1.urc = w.urc ++ adds) (hm : m ∈ adds) :
    m ∈ (urcAccW w1 false [] fuel2).1
      ∧ (urcAccW w1 false [] fuel2).2.urc = []
      ∧ (urcAccW (urcAccW w1 false [] fuel2).2 true [] fuel3).1 = [] := by
  have h2 : readFull crlf fuel2 [] = .timeout := readFull_nil crlf (by decide) fuel2
  have h3 : readFull crlf fuel3 [] = .timeout := readFull_nil crlf (by decide) fuel3
  refine ⟨?_, by simp [urcAccW, urcAcc], by simp [urcAccW, urcAcc, h3]⟩
  simp [urcAccW, urcAcc, h2, hadds]
  exact Or.inr hm

theorem urc_shared_across_instances_witness :
    sendW ⟨mkDevice false, mkDevice false, []⟩ true ["\r\nOK\r\n\r\nRING\r\n".data]
        "AT".data crlf (some "OK".data) none 10
      = (.ok "OK".data, ⟨⟨true, "AT\r".data⟩, mkDevice false, ["RING".data]⟩)
      ∧ (⟨⟨true, "AT\r".data⟩, mkDevice false, ["RING".data]⟩ : World).urc
        = [] ++ ["RING".data]
      ∧ "RING".data ∈ (["RING".data] : List (List Char))
      ∧ ("RING".data ∈ (urcAccW ⟨⟨true, "AT\r".data⟩, mkDevice false, ["RING".data]⟩ false [] 4).1
        ∧ (urcAccW ⟨⟨true, "AT\r".data⟩, mkDevice false, ["RING".data]⟩ false [] 4).2.urc = []
        ∧ (urcAccW (urcAccW ⟨⟨true, "AT\r".data⟩, mkDevice false, ["RING".data]⟩ false [] 4).2
            true [] 4).1 = []) :=
  ⟨by decide, by decide, by decide,
    urc_shared_across_instances ⟨mkDevice false, mkDevice false, []⟩
      ["\r\nOK\r\n\r\nRING\r\n".data] "AT".data crlf (some "OK".data) none 10 4 4
      (.ok "OK".data) ⟨⟨true, "AT\r".data⟩, mkDevice false, ["RING".data]⟩
      ["RING".data] "RING".data (by decide) (by decide) (by decide)⟩

/-- C10: on a host without the GPIO module the constructor initialises the
powered-on flag to true, so `send` on a freshly constructed device can never
take the "Device not on" branch. -/
theorem send_non_rpi_never_not_powered :
    (mkDevice false).is_on = true
      ∧ ∀ (urc0 sched : List (List Char)) (command pattern : List Char)
          (back : Option (List Char)) (eps : Option (List (List Char))) (fuel : Nat),
          (send (mkDevice false) urc0 sched command pattern back eps fuel).1 ≠ .notOn := by
  refine ⟨rfl, ?_⟩
  intro urc0 sched command pattern back eps fuel
  simp only [send]
  have hcond : (mkDevice false).is_on = true := rfl
  rw [if_pos hcond]
  split
  · simp
  · simp
  · split
    · simp
    · split <;> simp

end PySim7600
